import Mathlib

/-!
Verification of the backtest execution engine of a crypto trading bot.

The embedding mirrors `services/bybit_client.py` (class `SimulatedBybitClient`,
in particular `execute_order` and `get_current_position`) and the replay loop of
`backtester.py` (`run_backtest`).  Python floats are modelled as rationals; the
position-size epsilon `1e-9` of the source is the rational `1/10^9`.  Sides and
signals are kept as the raw strings the source compares ("Long", "Short",
"None", "Buy", "Sell", "BUY", "SELL", ...), so that the source's literal string
comparisons are preserved.
-/

namespace TradingBot

/-- The `1e-9` position-size epsilon appearing in `execute_order`. -/
def eps : ℚ := 1 / 1000000000

/-- `config.TRADE_QUANTITY` (= 0.1 in `config.py`). -/
def TRADE_QUANTITY : ℚ := 1 / 10

/-- `config.BACKTEST_INITIAL_CAPITAL` (= 10000.0 in `config.py`). -/
def BACKTEST_INITIAL_CAPITAL : ℚ := 10000

/-- The simulated position dictionary `self.current_position`. -/
structure Position where
  symbol : Option String
  size : ℚ
  side : String
  entry_price : ℚ
  deriving Repr, DecidableEq

/-- The mutable state of `SimulatedBybitClient`. -/
structure ClientState where
  current_balance : ℚ
  initial_capital : ℚ
  commission_rate : ℚ
  current_position : Position
  deriving Repr, DecidableEq

/-- `SimulatedBybitClient.__init__`. -/
def initClient (initial_capital commission_rate : ℚ) : ClientState :=
  { current_balance := initial_capital
    initial_capital := initial_capital
    commission_rate := commission_rate
    current_position := { symbol := none, size := 0, side := "None", entry_price := 0 } }

/-- The dictionary returned by `execute_order` (order ids are not modelled). -/
structure OrderResult where
  success : Bool
  pnl : ℚ
  balance_after_trade : ℚ
  deriving Repr, DecidableEq

/-- `SimulatedBybitClient.get_current_position`: `(size, side, entry_price)`. -/
def get_current_position (st : ClientState) : ℚ × String × ℚ :=
  (st.current_position.size, st.current_position.side, st.current_position.entry_price)

/-- `SimulatedBybitClient.execute_order`.  The `timestamp` argument of the
source is only printed, never used, and is omitted.  The branch order is the
source's `if / elif / elif / else` chain: closing, opening, extending, reject. -/
def execute_order (st : ClientState) (symbol order_side : String)
    (quantity price : ℚ) : OrderResult × ClientState :=
  let current_size := st.current_position.size
  let current_side := st.current_position.side
  let current_entry_price := st.current_position.entry_price
  if eps < current_size ∧
      ((current_side = "Long" ∧ order_side = "Sell") ∨
       (current_side = "Short" ∧ order_side = "Buy")) then
    -- is_closing
    let close_amount := min quantity current_size
    let pnl := if current_side = "Long" then (price - current_entry_price) * close_amount
               else (current_entry_price - price) * close_amount
    let new_balance := st.current_balance + pnl
    let sz := current_size - close_amount
    let pos :=
      if sz ≤ eps then
        { st.current_position with size := 0, side := "None", entry_price := 0 }
      else
        { st.current_position with size := sz }
    (⟨true, pnl, new_balance⟩,
     { st with current_balance := new_balance, current_position := pos })
  else if current_size < eps then
    -- is_opening
    let pos : Position :=
      { symbol := some symbol
        size := quantity
        side := if order_side = "Buy" then "Long" else "Short"
        entry_price := price }
    (⟨true, 0, st.current_balance⟩, { st with current_position := pos })
  else if eps < current_size ∧ current_side = order_side then
    -- is_extending (note: the source compares the position side string with
    -- the order side string, exactly as written here)
    let old_total_value := current_size * current_entry_price
    let new_trade_value := quantity * price
    let new_total_size := current_size + quantity
    let new_avg := if 0 < new_total_size then (old_total_value + new_trade_value) / new_total_size
                   else 0
    let pos := { st.current_position with size := new_total_size, entry_price := new_avg }
    (⟨true, 0, st.current_balance⟩, { st with current_position := pos })
  else
    -- reject: order does not fit any meaningful operation
    (⟨false, 0, st.current_balance⟩, st)

/-- One candle row of the historical DataFrame: `(Timestamp, close)`. -/
structure Candle where
  timestamp : ℕ
  close : ℚ
  deriving Repr, DecidableEq

/-- One row appended by `log_trade` during the backtest (fields that matter to
the claims: action, side, quantity, price, pnl, balance after, tag). -/
structure LogEntry where
  action : String
  side : String
  quantity : ℚ
  price : ℚ
  pnl : ℚ
  balance_after : ℚ
  tag : String
  deriving Repr, DecidableEq

/-- One call `run_backtest` makes to `execute_order`: the request together with
the returned success flag and pnl. -/
structure Fill where
  order_side : String
  quantity : ℚ
  price : ℚ
  timestamp : ℕ
  success : Bool
  pnl : ℚ
  deriving Repr, DecidableEq

/-- The request part of a fill (side, quantity, price, timestamp). -/
def Fill.req (f : Fill) : String × ℚ × ℚ × ℕ :=
  (f.order_side, f.quantity, f.price, f.timestamp)

/-- The close leg of the engine: `execute_order` with the *current position
size* as quantity, logging `CLOSE_POSITION` only on success
(`backtester.py` lines 100-106 / 121-126). -/
def closeLeg (sym os tag : String) (price : ℚ) (ts : ℕ) (st : ClientState) :
    ClientState × List LogEntry × List Fill :=
  let r := execute_order st sym os st.current_position.size price
  (r.2,
   if r.1.success then
     [⟨"CLOSE_POSITION", os, st.current_position.size, price, r.1.pnl,
       r.1.balance_after_trade, tag⟩]
   else [],
   [⟨os, st.current_position.size, price, ts, r.1.success, r.1.pnl⟩])

/-- The open leg of the engine: `execute_order` with `config.TRADE_QUANTITY`,
logging `OPEN_POSITION` with the literal pnl `0.0` only on success
(`backtester.py` lines 109-114 / 129-134). -/
def openLeg (sym os tag : String) (qty price : ℚ) (ts : ℕ) (st : ClientState) :
    ClientState × List LogEntry × List Fill :=
  let r := execute_order st sym os qty price
  (r.2,
   if r.1.success then
     [⟨"OPEN_POSITION", os, qty, price, 0, r.1.balance_after_trade, tag⟩]
   else [],
   [⟨os, qty, price, ts, r.1.success, r.1.pnl⟩])

/-- The signal dispatch of the replay loop body (`backtester.py` lines 95-138). -/
def handleSignal (sym : String) (qty : ℚ) (signal : String) (price : ℚ) (ts : ℕ)
    (st : ClientState) : ClientState × List LogEntry × List Fill :=
  if signal = "BUY" then
    if st.current_position.side ≠ "Long" then
      let a := if st.current_position.side = "Short" then
                 closeLeg sym "Buy" "CLOSED_SHORT" price ts st
               else (st, [], [])
      let b := openLeg sym "Buy" "EXECUTED_LONG" qty price ts a.1
      (b.1, a.2.1 ++ b.2.1, a.2.2 ++ b.2.2)
    else (st, [], [])
  else if signal = "SELL" then
    if st.current_position.side ≠ "Short" then
      let a := if st.current_position.side = "Long" then
                 closeLeg sym "Sell" "CLOSED_LONG" price ts st
               else (st, [], [])
      let b := openLeg sym "Sell" "EXECUTED_SHORT" qty price ts a.1
      (b.1, a.2.1 ++ b.2.1, a.2.2 ++ b.2.2)
    else (st, [], [])
  else (st, [], [])

/-- Fallback candle for list indexing (the loop only indexes in range). -/
def defaultCandle : Candle := ⟨0, 0⟩

/-- One iteration of the replay loop at index `i`: slice `candles[0:i+1]`,
invoke the strategy on the slice, dispatch on the signal using candle `i`'s
close price and timestamp (`backtester.py` lines 80-138). -/
def backtestStep (strategy : List Candle → String) (sym : String) (qty : ℚ)
    (candles : List Candle) (i : ℕ) (st : ClientState) :
    ClientState × List LogEntry × List Fill :=
  let slice := candles.take (i + 1)
  let c := candles.getD i defaultCandle
  handleSignal sym qty (strategy slice) c.close c.timestamp st

/-- The replay loop over a list of indices, accumulating the log rows, the
fills issued, and the slice passed to each strategy invocation. -/
def runIndices (strategy : List Candle → String) (sym : String) (qty : ℚ)
    (candles : List Candle) :
    List ℕ → ClientState →
      ClientState × List LogEntry × List Fill × List (List Candle)
  | [], st => (st, [], [], [])
  | i :: rest, st =>
    let a := backtestStep strategy sym qty candles i st
    let b := runIndices strategy sym qty candles rest a.1
    (b.1, a.2.1 ++ b.2.1, a.2.2 ++ b.2.2.1, candles.take (i + 1) :: b.2.2.2)

/-- Terminal liquidation (`backtester.py` lines 142-158): if the final position
side is not "None", force one closing fill at the last candle's close, logged
unconditionally with tag `CLOSED_AT_END`. -/
def terminalLiquidation (sym : String) (candles : List Candle) (st : ClientState) :
    ClientState × List LogEntry × List Fill :=
  if st.current_position.side ≠ "None" then
    match candles.getLast? with
    | some c =>
      if st.current_position.side = "Long" then
        let r := execute_order st sym "Sell" st.current_position.size c.close
        (r.2,
         [⟨"CLOSE_POSITION", "Sell", st.current_position.size, c.close, r.1.pnl,
           r.1.balance_after_trade, "CLOSED_AT_END"⟩],
         [⟨"Sell", st.current_position.size, c.close, c.timestamp, r.1.success, r.1.pnl⟩])
      else if st.current_position.side = "Short" then
        let r := execute_order st sym "Buy" st.current_position.size c.close
        (r.2,
         [⟨"CLOSE_POSITION", "Buy", st.current_position.size, c.close, r.1.pnl,
           r.1.balance_after_trade, "CLOSED_AT_END"⟩],
         [⟨"Buy", st.current_position.size, c.close, c.timestamp, r.1.success, r.1.pnl⟩])
      else (st, [], [])
    | none => (st, [], [])
  else (st, [], [])

/-- The observable outcome of a whole backtest run. -/
structure RunResult where
  final : ClientState
  log : List LogEntry
  fills : List Fill
  stratInputs : List (List Candle)
  deriving Repr

/-- `run_backtest` of `backtester.py`: the initial `START_BACKTEST` log row,
the replay loop over indices `0 .. N-1`, then terminal liquidation. -/
def run_backtest (strategy : List Candle → String) (sym : String)
    (qty initial_capital commission_rate : ℚ) (candles : List Candle) : RunResult :=
  let st0 := initClient initial_capital commission_rate
  let startLog : LogEntry :=
    ⟨"START_BACKTEST", "N/A", 0, 0, 0, st0.current_balance, "INITIALIZED"⟩
  let a := runIndices strategy sym qty candles (List.range candles.length) st0
  let t := terminalLiquidation sym candles a.1
  ⟨t.1, startLog :: (a.2.1 ++ t.2.1), a.2.2.1 ++ t.2.2, a.2.2.2⟩

/-- A stub strategy used in concrete runs: WAIT, WAIT, BUY, SELL by length. -/
def scenarioStrategy : List Candle → String :=
  fun l => if l.length ≤ 2 then "WAIT" else if l.length = 3 then "BUY" else "SELL"

/-- The four-candle series of the spec's end-to-end scenario. -/
def scenarioCandles : List Candle := [⟨0, 100⟩, ⟨1, 105⟩, ⟨2, 95⟩, ⟨3, 120⟩]

-- Smoke test: the spec's end-to-end scenario (§8) with trade quantity 1 and
-- initial capital 1000 ends flat with final balance 1025.
set_option maxRecDepth 4000 in
example :
    (run_backtest scenarioStrategy "BTCUSDT" 1 1000 0 scenarioCandles).final.current_balance
      = 1025 ∧
    (run_backtest scenarioStrategy "BTCUSDT" 1 1000 0 scenarioCandles).final.current_position.side
      = "None" := by
  with_unfolding_all decide

/-! ### Helper lemmas about `execute_order` -/

/-- The classification condition of the closing branch of `execute_order`. -/
def closingCond (st : ClientState) (order_side : String) : Prop :=
  eps < st.current_position.size ∧
    ((st.current_position.side = "Long" ∧ order_side = "Sell") ∨
     (st.current_position.side = "Short" ∧ order_side = "Buy"))

instance (st : ClientState) (os : String) : Decidable (closingCond st os) := by
  unfold closingCond; infer_instance

theorem eps_pos : (0 : ℚ) < eps := by norm_num [eps]

/-- `execute_order` always moves the balance by exactly the returned pnl. -/
theorem execute_order_balance (st : ClientState) (sym os : String) (q p : ℚ) :
    (execute_order st sym os q p).2.current_balance
      = st.current_balance + (execute_order st sym os q p).1.pnl := by
  simp only [execute_order]
  split_ifs <;> simp

/-- A non-closing call returns pnl 0. -/
theorem execute_order_pnl_zero (st : ClientState) (sym os : String) (q p : ℚ)
    (h : ¬ closingCond st os) :
    (execute_order st sym os q p).1.pnl = 0 := by
  rw [closingCond] at h
  simp only [execute_order]
  split_ifs <;> rfl

/-- An unsuccessful call (the reject branch) returns pnl 0 and leaves the
state untouched. -/
theorem execute_order_of_not_success (st : ClientState) (sym os : String) (q p : ℚ)
    (h : (execute_order st sym os q p).1.success = false) :
    (execute_order st sym os q p).1.pnl = 0 ∧ (execute_order st sym os q p).2 = st := by
  simp only [execute_order] at h ⊢
  split_ifs at h ⊢ <;> simp_all

/-- The closing branch: success, pnl computed from `min quantity size`, and the
pnl added to the balance. -/
theorem execute_order_closing (st : ClientState) (sym os : String) (q p : ℚ)
    (h : closingCond st os) :
    (execute_order st sym os q p).1.success = true ∧
    (execute_order st sym os q p).1.pnl =
      (if st.current_position.side = "Long"
       then (p - st.current_position.entry_price) * min q st.current_position.size
       else (st.current_position.entry_price - p) * min q st.current_position.size) ∧
    (execute_order st sym os q p).2.current_balance
      = st.current_balance + (execute_order st sym os q p).1.pnl := by
  rw [closingCond] at h
  simp only [execute_order, if_pos h]
  refine ⟨?_, ?_, ?_⟩ <;> trivial

/-- A closing call whose quantity is the whole current size fully resets the
position to FLAT. -/
theorem execute_order_close_full (st : ClientState) (sym os : String) (p : ℚ)
    (h : closingCond st os) :
    (execute_order st sym os st.current_position.size p).1.success = true ∧
    (execute_order st sym os st.current_position.size p).2.current_position.size = 0 ∧
    (execute_order st sym os st.current_position.size p).2.current_position.side = "None" := by
  rw [closingCond] at h
  simp only [execute_order, if_pos h]
  have hmin : st.current_position.size
      - min st.current_position.size st.current_position.size = 0 := by simp
  simp only [hmin]
  rw [if_pos (le_of_lt eps_pos)]
  refine ⟨?_, ?_, ?_⟩ <;> trivial

/-- The opening branch: taken exactly when the size is strictly below epsilon;
success, pnl 0, balance unchanged, position set from the fill. -/
theorem execute_order_opening (st : ClientState) (sym os : String) (q p : ℚ)
    (h : st.current_position.size < eps) :
    (execute_order st sym os q p).1.success = true ∧
    (execute_order st sym os q p).1.pnl = 0 ∧
    (execute_order st sym os q p).2.current_balance = st.current_balance ∧
    (execute_order st sym os q p).2.current_position.side
      = (if os = "Buy" then "Long" else "Short") ∧
    (execute_order st sym os q p).2.current_position.size = q ∧
    (execute_order st sym os q p).2.current_position.entry_price = p := by
  have hnc : ¬ (eps < st.current_position.size ∧
      ((st.current_position.side = "Long" ∧ os = "Sell") ∨
       (st.current_position.side = "Short" ∧ os = "Buy"))) := by
    rintro ⟨h1, -⟩; exact absurd h (not_lt.mpr (le_of_lt h1))
  simp only [execute_order, if_neg hnc, if_pos h]
  simp

/-- The reject branch: no branch condition holds; failure is returned and the
whole client state (balance, position size, side, entry price) is unchanged. -/
theorem execute_order_reject (st : ClientState) (sym os : String) (q p : ℚ)
    (h1 : ¬ closingCond st os)
    (h2 : ¬ st.current_position.size < eps)
    (h3 : ¬ (eps < st.current_position.size ∧ st.current_position.side = os)) :
    (execute_order st sym os q p).1.success = false ∧
    (execute_order st sym os q p).1.pnl = 0 ∧
    (execute_order st sym os q p).2 = st := by
  rw [closingCond] at h1
  simp only [execute_order, if_neg h1, if_neg h2, if_neg h3]
  simp

/-! ### Lemmas about the engine's two legs -/

/-- Loop invariant on the simulated position for trade quantity `q`: the
position is either exactly flat, or has size exactly `q` with side Long or
Short. -/
def GoodPos (q : ℚ) (st : ClientState) : Prop :=
  (st.current_position.size = 0 ∧ st.current_position.side = "None") ∨
  (st.current_position.size = q ∧
    (st.current_position.side = "Long" ∨ st.current_position.side = "Short"))

/-- A close leg issued under the closing classification fully flattens the
position and its fill succeeds. -/
theorem closeLeg_flat (sym os tag : String) (price : ℚ) (ts : ℕ) (st : ClientState)
    (h : closingCond st os) :
    (closeLeg sym os tag price ts st).1.current_position.size = 0 ∧
    (closeLeg sym os tag price ts st).1.current_position.side = "None" ∧
    ∀ f ∈ (closeLeg sym os tag price ts st).2.2, f.success = true := by
  obtain ⟨h1, h2, h3⟩ := execute_order_close_full st sym os price h
  refine ⟨h2, h3, ?_⟩
  intro f hf
  simp only [closeLeg, List.mem_singleton] at hf
  rw [hf]
  exact h1

/-- An open leg on a below-epsilon position opens the configured quantity and
its fill succeeds. -/
theorem openLeg_opens (sym os tag : String) (q price : ℚ) (ts : ℕ) (st : ClientState)
    (h : st.current_position.size < eps) :
    (openLeg sym os tag q price ts st).1.current_position.size = q ∧
    (openLeg sym os tag q price ts st).1.current_position.side
      = (if os = "Buy" then "Long" else "Short") ∧
    ∀ f ∈ (openLeg sym os tag q price ts st).2.2, f.success = true := by
  obtain ⟨h1, -, -, h4, h5, -⟩ := execute_order_opening st sym os q price h
  refine ⟨h5, h4, ?_⟩
  intro f hf
  simp only [openLeg, List.mem_singleton] at hf
  rw [hf]
  exact h1

/-- The close leg moves the balance by exactly the sum of the pnl values it
logs. -/
theorem closeLeg_sum (sym os tag : String) (price : ℚ) (ts : ℕ) (st : ClientState) :
    (closeLeg sym os tag price ts st).1.current_balance
      = st.current_balance
        + (((closeLeg sym os tag price ts st).2.1).map LogEntry.pnl).sum := by
  simp only [closeLeg]
  by_cases hs : (execute_order st sym os st.current_position.size price).1.success = true
  · simp [hs, execute_order_balance]
  · have hns := execute_order_of_not_success st sym os st.current_position.size price
      (by simpa using hs)
    rw [execute_order_balance st sym os st.current_position.size price, hns.1]
    simp [hs]

/-- The open leg moves the balance by exactly the sum of the pnl values it
logs, provided it is not a closing fill (which the engine guarantees). -/
theorem openLeg_sum (sym os tag : String) (q price : ℚ) (ts : ℕ) (st : ClientState)
    (h : ¬ closingCond st os) :
    (openLeg sym os tag q price ts st).1.current_balance
      = st.current_balance
        + (((openLeg sym os tag q price ts st).2.1).map LogEntry.pnl).sum := by
  have hp := execute_order_pnl_zero st sym os q price h
  simp only [openLeg]
  by_cases hs : (execute_order st sym os q price).1.success = true
  · rw [execute_order_balance st sym os q price, hp]
    simp [hs]
  · rw [execute_order_balance st sym os q price, hp]
    simp [hs]

/-- After a close leg with order side `os`, a further `os` order can never be
classified as closing again (whatever the starting state was). -/
theorem closeLeg_no_reclose (sym os tag : String) (price : ℚ) (ts : ℕ)
    (st : ClientState) :
    ¬ closingCond (closeLeg sym os tag price ts st).1 os := by
  have hcl : (closeLeg sym os tag price ts st).1
      = (execute_order st sym os st.current_position.size price).2 := rfl
  rw [hcl]
  by_cases h1 : closingCond st os
  · obtain ⟨-, hsz, -⟩ := execute_order_close_full st sym os price h1
    rintro ⟨hlt, -⟩
    rw [hsz] at hlt
    exact absurd hlt (not_lt.mpr (le_of_lt eps_pos))
  · by_cases h2 : st.current_position.size < eps
    · obtain ⟨-, -, -, hside, -, -⟩ :=
        execute_order_opening st sym os st.current_position.size price h2
      rintro ⟨-, ⟨ha, hb⟩ | ⟨ha, hb⟩⟩ <;> rw [hside, hb] at ha <;> simp at ha
    · by_cases h3 : eps < st.current_position.size ∧ st.current_position.side = os
      · have h1n := h1
        rw [closingCond] at h1n
        have hside : (execute_order st sym os st.current_position.size price).2.current_position.side
            = st.current_position.side := by
          simp only [execute_order, if_neg h1n, if_neg h2, if_pos h3]
        rintro ⟨-, ⟨ha, hb⟩ | ⟨ha, hb⟩⟩ <;> rw [hside, h3.2, hb] at ha <;> simp at ha
      · obtain ⟨-, -, hst⟩ :=
          execute_order_reject st sym os st.current_position.size price h1 h2 h3
        rw [hst]
        exact h1

/-! ### Case equations for `handleSignal` -/

theorem handleSignal_buy_long (sym : String) (q price : ℚ) (ts : ℕ) (st : ClientState)
    (hL : st.current_position.side = "Long") :
    handleSignal sym q "BUY" price ts st = (st, [], []) := by
  simp [handleSignal, hL]

theorem handleSignal_sell_short (sym : String) (q price : ℚ) (ts : ℕ) (st : ClientState)
    (hS : st.current_position.side = "Short") :
    handleSignal sym q "SELL" price ts st = (st, [], []) := by
  simp [handleSignal, hS]

theorem handleSignal_eq_of_other (sym : String) (q : ℚ) (signal : String) (price : ℚ)
    (ts : ℕ) (st : ClientState) (h1 : signal ≠ "BUY") (h2 : signal ≠ "SELL") :
    handleSignal sym q signal price ts st = (st, [], []) := by
  simp [handleSignal, h1, h2]

theorem handleSignal_buy_short (sym : String) (q price : ℚ) (ts : ℕ) (st : ClientState)
    (hS : st.current_position.side = "Short") :
    handleSignal sym q "BUY" price ts st
      = ((openLeg sym "Buy" "EXECUTED_LONG" q price ts
            (closeLeg sym "Buy" "CLOSED_SHORT" price ts st).1).1,
         (closeLeg sym "Buy" "CLOSED_SHORT" price ts st).2.1
           ++ (openLeg sym "Buy" "EXECUTED_LONG" q price ts
                 (closeLeg sym "Buy" "CLOSED_SHORT" price ts st).1).2.1,
         (closeLeg sym "Buy" "CLOSED_SHORT" price ts st).2.2
           ++ (openLeg sym "Buy" "EXECUTED_LONG" q price ts
                 (closeLeg sym "Buy" "CLOSED_SHORT" price ts st).1).2.2) := by
  simp [handleSignal, hS]

theorem handleSignal_sell_long (sym : String) (q price : ℚ) (ts : ℕ) (st : ClientState)
    (hL : st.current_position.side = "Long") :
    handleSignal sym q "SELL" price ts st
      = ((openLeg sym "Sell" "EXECUTED_SHORT" q price ts
            (closeLeg sym "Sell" "CLOSED_LONG" price ts st).1).1,
         (closeLeg sym "Sell" "CLOSED_LONG" price ts st).2.1
           ++ (openLeg sym "Sell" "EXECUTED_SHORT" q price ts
                 (closeLeg sym "Sell" "CLOSED_LONG" price ts st).1).2.1,
         (closeLeg sym "Sell" "CLOSED_LONG" price ts st).2.2
           ++ (openLeg sym "Sell" "EXECUTED_SHORT" q price ts
                 (closeLeg sym "Sell" "CLOSED_LONG" price ts st).1).2.2) := by
  simp [handleSignal, hL]

theorem handleSignal_buy_flat (sym : String) (q price : ℚ) (ts : ℕ) (st : ClientState)
    (hL : st.current_position.side ≠ "Long") (hS : st.current_position.side ≠ "Short") :
    handleSignal sym q "BUY" price ts st
      = ((openLeg sym "Buy" "EXECUTED_LONG" q price ts st).1,
         (openLeg sym "Buy" "EXECUTED_LONG" q price ts st).2.1,
         (openLeg sym "Buy" "EXECUTED_LONG" q price ts st).2.2) := by
  simp [handleSignal, hL, hS]

theorem handleSignal_sell_flat (sym : String) (q price : ℚ) (ts : ℕ) (st : ClientState)
    (hL : st.current_position.side ≠ "Long") (hS : st.current_position.side ≠ "Short") :
    handleSignal sym q "SELL" price ts st
      = ((openLeg sym "Sell" "EXECUTED_SHORT" q price ts st).1,
         (openLeg sym "Sell" "EXECUTED_SHORT" q price ts st).2.1,
         (openLeg sym "Sell" "EXECUTED_SHORT" q price ts st).2.2) := by
  simp [handleSignal, hL, hS]

/-! ### Invariant preservation and balance accounting for one loop body -/

theorem handleSignal_inv (sym : String) (q : ℚ) (hq : eps < q) (signal : String)
    (price : ℚ) (ts : ℕ) (st : ClientState) (h : GoodPos q st) :
    GoodPos q (handleSignal sym q signal price ts st).1 ∧
    ∀ f ∈ (handleSignal sym q signal price ts st).2.2, f.success = true := by
  by_cases hb : signal = "BUY"
  · subst hb
    by_cases hL : st.current_position.side = "Long"
    · rw [handleSignal_buy_long sym q price ts st hL]
      exact ⟨h, by simp⟩
    · by_cases hS : st.current_position.side = "Short"
      · have hsz : st.current_position.size = q := by
          rcases h with ⟨-, h2⟩ | ⟨h1, -⟩
          · rw [hS] at h2; simp at h2
          · exact h1
        have hcc : closingCond st "Buy" := ⟨by rw [hsz]; exact hq, Or.inr ⟨hS, rfl⟩⟩
        obtain ⟨ha1, -, ha3⟩ := closeLeg_flat sym "Buy" "CLOSED_SHORT" price ts st hcc
        obtain ⟨hb1, hb2, hb3⟩ := openLeg_opens sym "Buy" "EXECUTED_LONG" q price ts
          (closeLeg sym "Buy" "CLOSED_SHORT" price ts st).1 (by rw [ha1]; exact eps_pos)
        rw [handleSignal_buy_short sym q price ts st hS]
        refine ⟨Or.inr ⟨hb1, by rw [hb2]; simp⟩, ?_⟩
        intro f hf
        rcases List.mem_append.mp hf with hf | hf
        exacts [ha3 f hf, hb3 f hf]
      · have hflat : st.current_position.size = 0 := by
          rcases h with ⟨h1, -⟩ | ⟨-, hside | hside⟩
          · exact h1
          · exact absurd hside hL
          · exact absurd hside hS
        obtain ⟨hb1, hb2, hb3⟩ := openLeg_opens sym "Buy" "EXECUTED_LONG" q price ts st
          (by rw [hflat]; exact eps_pos)
        rw [handleSignal_buy_flat sym q price ts st hL hS]
        exact ⟨Or.inr ⟨hb1, by rw [hb2]; simp⟩, hb3⟩
  · by_cases hsell : signal = "SELL"
    · subst hsell
      by_cases hS : st.current_position.side = "Short"
      · rw [handleSignal_sell_short sym q price ts st hS]
        exact ⟨h, by simp⟩
      · by_cases hL : st.current_position.side = "Long"
        · have hsz : st.current_position.size = q := by
            rcases h with ⟨-, h2⟩ | ⟨h1, -⟩
            · rw [hL] at h2; simp at h2
            · exact h1
          have hcc : closingCond st "Sell" := ⟨by rw [hsz]; exact hq, Or.inl ⟨hL, rfl⟩⟩
          obtain ⟨ha1, -, ha3⟩ := closeLeg_flat sym "Sell" "CLOSED_LONG" price ts st hcc
          obtain ⟨hb1, hb2, hb3⟩ := openLeg_opens sym "Sell" "EXECUTED_SHORT" q price ts
            (closeLeg sym "Sell" "CLOSED_LONG" price ts st).1 (by rw [ha1]; exact eps_pos)
          rw [handleSignal_sell_long sym q price ts st hL]
          refine ⟨Or.inr ⟨hb1, by rw [hb2]; simp⟩, ?_⟩
          intro f hf
          rcases List.mem_append.mp hf with hf | hf
          exacts [ha3 f hf, hb3 f hf]
        · have hflat : st.current_position.size = 0 := by
            rcases h with ⟨h1, -⟩ | ⟨-, hside | hside⟩
            · exact h1
            · exact absurd hside hL
            · exact absurd hside hS
          obtain ⟨hb1, hb2, hb3⟩ := openLeg_opens sym "Sell" "EXECUTED_SHORT" q price ts st
            (by rw [hflat]; exact eps_pos)
          rw [handleSignal_sell_flat sym q price ts st hL hS]
          exact ⟨Or.inr ⟨hb1, by rw [hb2]; simp⟩, hb3⟩
    · rw [handleSignal_eq_of_other sym q signal price ts st hb hsell]
      exact ⟨h, by simp⟩

theorem handleSignal_sum (sym : String) (q : ℚ) (signal : String) (price : ℚ) (ts : ℕ)
    (st : ClientState) :
    (handleSignal sym q signal price ts st).1.current_balance
      = st.current_balance
        + (((handleSignal sym q signal price ts st).2.1).map LogEntry.pnl).sum := by
  by_cases hb : signal = "BUY"
  · subst hb
    by_cases hL : st.current_position.side = "Long"
    · rw [handleSignal_buy_long sym q price ts st hL]; simp
    · by_cases hS : st.current_position.side = "Short"
      · rw [handleSignal_buy_short sym q price ts st hS]
        have h1 := closeLeg_sum sym "Buy" "CLOSED_SHORT" price ts st
        have h2 := openLeg_sum sym "Buy" "EXECUTED_LONG" q price ts
          (closeLeg sym "Buy" "CLOSED_SHORT" price ts st).1
          (closeLeg_no_reclose sym "Buy" "CLOSED_SHORT" price ts st)
        simp only [List.map_append, List.sum_append]
        rw [h2, h1]
        ring
      · rw [handleSignal_buy_flat sym q price ts st hL hS]
        refine openLeg_sum sym "Buy" "EXECUTED_LONG" q price ts st ?_
        rintro ⟨-, ⟨-, hx⟩ | ⟨hx, -⟩⟩
        · simp at hx
        · exact hS hx
  · by_cases hsell : signal = "SELL"
    · subst hsell
      by_cases hS : st.current_position.side = "Short"
      · rw [handleSignal_sell_short sym q price ts st hS]; simp
      · by_cases hL : st.current_position.side = "Long"
        · rw [handleSignal_sell_long sym q price ts st hL]
          have h1 := closeLeg_sum sym "Sell" "CLOSED_LONG" price ts st
          have h2 := openLeg_sum sym "Sell" "EXECUTED_SHORT" q price ts
            (closeLeg sym "Sell" "CLOSED_LONG" price ts st).1
            (closeLeg_no_reclose sym "Sell" "CLOSED_LONG" price ts st)
          simp only [List.map_append, List.sum_append]
          rw [h2, h1]
          ring
        · rw [handleSignal_sell_flat sym q price ts st hL hS]
          refine openLeg_sum sym "Sell" "EXECUTED_SHORT" q price ts st ?_
          rintro ⟨-, ⟨hx, -⟩ | ⟨-, hx⟩⟩
          · exact hL hx
          · simp at hx
    · rw [handleSignal_eq_of_other sym q signal price ts st hb hsell]; simp

/-! ### Loop-level lemmas -/

theorem backtestStep_inv (strategy : List Candle → String) (sym : String) (q : ℚ)
    (hq : eps < q) (candles : List Candle) (i : ℕ) (st : ClientState)
    (h : GoodPos q st) :
    GoodPos q (backtestStep strategy sym q candles i st).1 ∧
    ∀ f ∈ (backtestStep strategy sym q candles i st).2.2, f.success = true :=
  handleSignal_inv sym q hq _ _ _ st h

theorem backtestStep_sum (strategy : List Candle → String) (sym : String) (q : ℚ)
    (candles : List Candle) (i : ℕ) (st : ClientState) :
    (backtestStep strategy sym q candles i st).1.current_balance
      = st.current_balance
        + (((backtestStep strategy sym q candles i st).2.1).map LogEntry.pnl).sum :=
  handleSignal_sum sym q _ _ _ st

theorem runIndices_inv (strategy : List Candle → String) (sym : String) (q : ℚ)
    (hq : eps < q) (candles : List Candle) (ixs : List ℕ) (st : ClientState)
    (h : GoodPos q st) :
    GoodPos q (runIndices strategy sym q candles ixs st).1 ∧
    ∀ f ∈ (runIndices strategy sym q candles ixs st).2.2.1, f.success = true := by
  induction ixs generalizing st with
  | nil => exact ⟨h, by simp [runIndices]⟩
  | cons i rest ih =>
    obtain ⟨h1, h2⟩ := backtestStep_inv strategy sym q hq candles i st h
    obtain ⟨h3, h4⟩ := ih _ h1
    refine ⟨h3, ?_⟩
    intro f hf
    simp only [runIndices] at hf
    rcases List.mem_append.mp hf with hf | hf
    exacts [h2 f hf, h4 f hf]

theorem runIndices_sum (strategy : List Candle → String) (sym : String) (q : ℚ)
    (candles : List Candle) (ixs : List ℕ) (st : ClientState) :
    (runIndices strategy sym q candles ixs st).1.current_balance
      = st.current_balance
        + (((runIndices strategy sym q candles ixs st).2.1).map LogEntry.pnl).sum := by
  induction ixs generalizing st with
  | nil => simp [runIndices]
  | cons i rest ih =>
    simp only [runIndices, List.map_append, List.sum_append]
    rw [ih, backtestStep_sum]
    ring

theorem runIndices_stratInputs (strategy : List Candle → String) (sym : String) (q : ℚ)
    (candles : List Candle) (ixs : List ℕ) (st : ClientState) :
    (runIndices strategy sym q candles ixs st).2.2.2
      = ixs.map (fun i => candles.take (i + 1)) := by
  induction ixs generalizing st with
  | nil => simp [runIndices]
  | cons i rest ih => simp [runIndices, ih]

/-! ### Terminal-liquidation lemmas -/

theorem terminalLiquidation_flat (sym : String) (q : ℚ) (hq : eps < q)
    (candles : List Candle) (st : ClientState) (h : GoodPos q st)
    (hne : candles ≠ []) :
    (terminalLiquidation sym candles st).1.current_position.side = "None" ∧
    (terminalLiquidation sym candles st).1.current_position.size = 0 ∧
    ∀ f ∈ (terminalLiquidation sym candles st).2.2, f.success = true := by
  obtain ⟨c, hc⟩ := Option.isSome_iff_exists.mp (List.getLast?_isSome.mpr hne)
  rcases h with ⟨hsz, hside⟩ | ⟨hsz, hside | hside⟩
  · simp [terminalLiquidation, hside, hsz]
  · have hcc : closingCond st "Sell" := ⟨by rw [hsz]; exact hq, Or.inl ⟨hside, rfl⟩⟩
    obtain ⟨h1, h2, h3⟩ := execute_order_close_full st sym "Sell" c.close hcc
    simp only [terminalLiquidation, hside, hc]
    refine ⟨?_, ?_, ?_⟩
    · simpa using h3
    · simpa using h2
    · intro f hf
      simp at hf
      rw [hf]
      exact h1
  · have hcc : closingCond st "Buy" := ⟨by rw [hsz]; exact hq, Or.inr ⟨hside, rfl⟩⟩
    obtain ⟨h1, h2, h3⟩ := execute_order_close_full st sym "Buy" c.close hcc
    simp only [terminalLiquidation, hside, hc]
    refine ⟨?_, ?_, ?_⟩
    · simpa using h3
    · simpa using h2
    · intro f hf
      simp at hf
      rw [hf]
      exact h1

theorem terminalLiquidation_sum (sym : String) (candles : List Candle)
    (st : ClientState) :
    (terminalLiquidation sym candles st).1.current_balance
      = st.current_balance
        + (((terminalLiquidation sym candles st).2.1).map LogEntry.pnl).sum := by
  by_cases hside : st.current_position.side ≠ "None"
  · rcases hgl : candles.getLast? with _ | c
    · simp [terminalLiquidation, hgl]
    · by_cases hL : st.current_position.side = "Long"
      · simp only [terminalLiquidation, if_pos hside, hgl, if_pos hL]
        simp [execute_order_balance]
      · by_cases hS : st.current_position.side = "Short"
        · simp only [terminalLiquidation, if_pos hside, hgl, if_neg hL, if_pos hS]
          simp [execute_order_balance]
        · simp only [terminalLiquidation, if_pos hside, hgl, if_neg hL, if_neg hS]
          simp
  · simp only [terminalLiquidation, if_neg hside]
    simp

/-! ### Commission-rate noninterference machinery -/

/-- Overwrite only the commission-rate field of the client state. -/
def setCR (c : ℚ) (st : ClientState) : ClientState :=
  { st with commission_rate := c }

@[simp] theorem setCR_position (c : ℚ) (st : ClientState) :
    (setCR c st).current_position = st.current_position := rfl

@[simp] theorem setCR_balance (c : ℚ) (st : ClientState) :
    (setCR c st).current_balance = st.current_balance := rfl

theorem execute_order_setCR (c : ℚ) (st : ClientState) (sym os : String) (q p : ℚ) :
    execute_order (setCR c st) sym os q p
      = ((execute_order st sym os q p).1, setCR c (execute_order st sym os q p).2) := by
  obtain ⟨b, ic, cr0, pos⟩ := st
  simp only [execute_order, setCR]
  split_ifs <;> rfl

theorem closeLeg_setCR (c : ℚ) (sym os tag : String) (price : ℚ) (ts : ℕ)
    (st : ClientState) :
    closeLeg sym os tag price ts (setCR c st)
      = (setCR c (closeLeg sym os tag price ts st).1,
         (closeLeg sym os tag price ts st).2.1,
         (closeLeg sym os tag price ts st).2.2) := by
  simp only [closeLeg, setCR_position, execute_order_setCR]

theorem openLeg_setCR (c : ℚ) (sym os tag : String) (q price : ℚ) (ts : ℕ)
    (st : ClientState) :
    openLeg sym os tag q price ts (setCR c st)
      = (setCR c (openLeg sym os tag q price ts st).1,
         (openLeg sym os tag q price ts st).2.1,
         (openLeg sym os tag q price ts st).2.2) := by
  simp only [openLeg, execute_order_setCR]

theorem handleSignal_setCR (c : ℚ) (sym : String) (q : ℚ) (signal : String)
    (price : ℚ) (ts : ℕ) (st : ClientState) :
    handleSignal sym q signal price ts (setCR c st)
      = (setCR c (handleSignal sym q signal price ts st).1,
         (handleSignal sym q signal price ts st).2.1,
         (handleSignal sym q signal price ts st).2.2) := by
  simp only [handleSignal, setCR_position]
  split_ifs <;> simp [closeLeg_setCR, openLeg_setCR]

theorem backtestStep_setCR (c : ℚ) (strategy : List Candle → String) (sym : String)
    (q : ℚ) (candles : List Candle) (i : ℕ) (st : ClientState) :
    backtestStep strategy sym q candles i (setCR c st)
      = (setCR c (backtestStep strategy sym q candles i st).1,
         (backtestStep strategy sym q candles i st).2.1,
         (backtestStep strategy sym q candles i st).2.2) :=
  handleSignal_setCR c sym q _ _ _ st

theorem runIndices_setCR (c : ℚ) (strategy : List Candle → String) (sym : String)
    (q : ℚ) (candles : List Candle) (ixs : List ℕ) (st : ClientState) :
    runIndices strategy sym q candles ixs (setCR c st)
      = (setCR c (runIndices strategy sym q candles ixs st).1,
         (runIndices strategy sym q candles ixs st).2.1,
         (runIndices strategy sym q candles ixs st).2.2.1,
         (runIndices strategy sym q candles ixs st).2.2.2) := by
  induction ixs generalizing st with
  | nil => simp [runIndices]
  | cons i rest ih =>
    simp only [runIndices, backtestStep_setCR, ih]

theorem terminalLiquidation_setCR (c : ℚ) (sym : String) (candles : List Candle)
    (st : ClientState) :
    terminalLiquidation sym candles (setCR c st)
      = (setCR c (terminalLiquidation sym candles st).1,
         (terminalLiquidation sym candles st).2.1,
         (terminalLiquidation sym candles st).2.2) := by
  by_cases hside : st.current_position.side ≠ "None"
  · rcases hgl : candles.getLast? with _ | cd
    · simp [terminalLiquidation, hgl, hside]
    · by_cases hL : st.current_position.side = "Long"
      · simp only [terminalLiquidation, setCR_position, if_pos hside, hgl, if_pos hL,
          execute_order_setCR]
      · by_cases hS : st.current_position.side = "Short"
        · simp only [terminalLiquidation, setCR_position, if_pos hside, hgl, if_neg hL,
            if_pos hS, execute_order_setCR]
        · simp only [terminalLiquidation, setCR_position, if_pos hside, hgl, if_neg hL,
            if_neg hS]
  · simp only [terminalLiquidation, setCR_position, if_neg hside]

theorem initClient_setCR (cap cr : ℚ) :
    initClient cap cr = setCR cr (initClient cap 0) := rfl

theorem run_backtest_cr_eq_base (strategy : List Candle → String) (sym : String)
    (qty cap cr : ℚ) (candles : List Candle) :
    run_backtest strategy sym qty cap cr candles
      = ⟨setCR cr (run_backtest strategy sym qty cap 0 candles).final,
         (run_backtest strategy sym qty cap 0 candles).log,
         (run_backtest strategy sym qty cap 0 candles).fills,
         (run_backtest strategy sym qty cap 0 candles).stratInputs⟩ := by
  simp only [run_backtest, initClient_setCR cap cr, runIndices_setCR,
    terminalLiquidation_setCR, setCR_balance]

/-! ### Concrete states used by witnesses and counterexamples -/

/-- A LONG position of size 2 at entry 100 with balance 1000. -/
def longState : ClientState :=
  ⟨1000, 1000, 0, { symbol := some "BTCUSDT", size := 2, side := "Long", entry_price := 100 }⟩

/-- A SHORT position of size 2 at entry 100 with balance 1000. -/
def shortState : ClientState :=
  ⟨1000, 1000, 0, { symbol := some "BTCUSDT", size := 2, side := "Short", entry_price := 100 }⟩

/-- A LONG position whose size is exactly the epsilon 1e-9. -/
def epsLongState : ClientState :=
  ⟨1000, 1000, 0, { symbol := some "BTCUSDT", size := eps, side := "Long", entry_price := 100 }⟩

/-- A SHORT position whose size is exactly the epsilon 1e-9. -/
def epsShortState : ClientState :=
  ⟨500, 500, 0, { symbol := some "BTCUSDT", size := eps, side := "Short", entry_price := 100 }⟩

/-- A freshly initialised (flat) client. -/
def flatState : ClientState := initClient 1000 0

/-- A LONG position of size 1 at entry 100 (the spec's extend example). -/
def extendLongState : ClientState :=
  ⟨1000, 1000, 0, { symbol := some "BTCUSDT", size := 1, side := "Long", entry_price := 100 }⟩

/-- A SHORT position of size 3 at entry 90 (used for the reversal witness). -/
def revState : ClientState :=
  ⟨1000, 1000, 0, { symbol := some "BTCUSDT", size := 3, side := "Short", entry_price := 90 }⟩

/-- A strategy that always says BUY. -/
def alwaysBuyStrategy : List Candle → String := fun _ => "BUY"

/-- One candle with timestamp 7 and close 100. -/
def revCandles : List Candle := [⟨7, 100⟩]

/-- A strategy that says BUY on the first bar and SELL afterwards. -/
def lenOneStrategy : List Candle → String :=
  fun l => if l.length = 1 then "BUY" else "SELL"

/-! ### Claim theorems -/

/-- C1: Causality of the replay loop: for every input series and every index
`i` with `i < N`, the strategy invocation performed at step `i` receives
exactly the slice `candles[0..i]` — a list of length `i+1` that is a prefix of
the series, hence contains no candle at index `i+1` or later. -/
theorem causality (strategy : List Candle → String) (sym : String)
    (qty cap cr : ℚ) (candles : List Candle) (i : ℕ) (h : i < candles.length) :
    (run_backtest strategy sym qty cap cr candles).stratInputs[i]?
        = some (candles.take (i + 1)) ∧
    (candles.take (i + 1)).length = i + 1 ∧
    candles.take (i + 1) <+: candles := by
  refine ⟨?_, ?_, List.take_prefix _ _⟩
  · have hs : (run_backtest strategy sym qty cap cr candles).stratInputs
        = (List.range candles.length).map (fun j => candles.take (j + 1)) := by
      simp only [run_backtest]
      exact runIndices_stratInputs strategy sym qty candles
        (List.range candles.length) (initClient cap cr)
    rw [hs, List.getElem?_map, List.getElem?_range h]
    rfl
  · rw [List.length_take]
    exact Nat.min_eq_left h

/-- Witness for C1 at a concrete run and index 2. -/
theorem causality_witness :
    2 < scenarioCandles.length ∧
    ((run_backtest scenarioStrategy "BTCUSDT" 1 1000 0 scenarioCandles).stratInputs[2]?
        = some (scenarioCandles.take (2 + 1)) ∧
     (scenarioCandles.take (2 + 1)).length = 2 + 1 ∧
     scenarioCandles.take (2 + 1) <+: scenarioCandles) :=
  ⟨by with_unfolding_all decide,
   causality scenarioStrategy "BTCUSDT" 1 1000 0 scenarioCandles 2
     (by with_unfolding_all decide)⟩

/-- C2: Flat-at-end: for every input series of length ≥ 1 and every sequence
of signals produced by the strategy, after terminal liquidation the simulated
position has side "None" and size exactly 0 (at the configured trade quantity
`config.TRADE_QUANTITY` = 0.1). -/
theorem flat_at_end (strategy : List Candle → String) (sym : String) (cap cr : ℚ)
    (candles : List Candle) (h : 1 ≤ candles.length) :
    (run_backtest strategy sym TRADE_QUANTITY cap cr candles).final.current_position.side
        = "None" ∧
    (run_backtest strategy sym TRADE_QUANTITY cap cr candles).final.current_position.size
        = 0 := by
  have hq : eps < TRADE_QUANTITY := by norm_num [eps, TRADE_QUANTITY]
  have hne : candles ≠ [] := List.ne_nil_of_length_pos h
  have hloop := (runIndices_inv strategy sym TRADE_QUANTITY hq candles
      (List.range candles.length) (initClient cap cr) (Or.inl ⟨rfl, rfl⟩)).1
  have hterm := terminalLiquidation_flat sym TRADE_QUANTITY hq candles
      (runIndices strategy sym TRADE_QUANTITY candles (List.range candles.length)
        (initClient cap cr)).1 hloop hne
  simp only [run_backtest]
  exact ⟨hterm.1, hterm.2.1⟩

/-- Witness for C2 on the four-candle scenario series. -/
theorem flat_at_end_witness :
    1 ≤ scenarioCandles.length ∧
    ((run_backtest scenarioStrategy "BTCUSDT" TRADE_QUANTITY 10000 0
        scenarioCandles).final.current_position.side = "None" ∧
     (run_backtest scenarioStrategy "BTCUSDT" TRADE_QUANTITY 10000 0
        scenarioCandles).final.current_position.size = 0) :=
  ⟨by with_unfolding_all decide,
   flat_at_end scenarioStrategy "BTCUSDT" 10000 0 scenarioCandles
     (by with_unfolding_all decide)⟩

/-- C3: Balance conservation: for every complete backtest run, the sum of all
pnl values written to the trade log equals final balance minus initial
balance exactly; the balance is never mutated outside a recorded fill. -/
theorem balance_conservation (strategy : List Candle → String) (sym : String)
    (qty cap cr : ℚ) (candles : List Candle) :
    (((run_backtest strategy sym qty cap cr candles).log).map LogEntry.pnl).sum
      = (run_backtest strategy sym qty cap cr candles).final.current_balance - cap := by
  have hloop := runIndices_sum strategy sym qty candles (List.range candles.length)
    (initClient cap cr)
  have hterm := terminalLiquidation_sum sym candles
    (runIndices strategy sym qty candles (List.range candles.length) (initClient cap cr)).1
  simp only [run_backtest, List.map_cons, List.map_append, List.sum_cons, List.sum_append]
  rw [hterm, hloop]
  have hcap : (initClient cap cr).current_balance = cap := rfl
  rw [hcap]
  ring

/-- C4: Closing-fill PnL: for every fill classified as closing, the realized
pnl is `(exit − entry) * min(quantity, size)` for a LONG and
`(entry − exit) * min(quantity, size)` for a SHORT, and exactly that pnl is
added to the balance. -/
theorem closing_fill_pnl (st : ClientState) (sym os : String) (q p : ℚ)
    (h : eps < st.current_position.size ∧
      ((st.current_position.side = "Long" ∧ os = "Sell") ∨
       (st.current_position.side = "Short" ∧ os = "Buy"))) :
    (execute_order st sym os q p).1.pnl =
      (if st.current_position.side = "Long"
       then (p - st.current_position.entry_price) * min q st.current_position.size
       else (st.current_position.entry_price - p) * min q st.current_position.size) ∧
    (execute_order st sym os q p).2.current_balance
      = st.current_balance + (execute_order st sym os q p).1.pnl ∧
    (execute_order st sym os q p).1.success = true := by
  obtain ⟨h1, h2, h3⟩ := execute_order_closing st sym os q p h
  exact ⟨h2, h3, h1⟩

/-- Witness for C4: LONG size 2 at entry 100 closed at 110 yields +20; and
SHORT size 2 at entry 100 closed (by a Buy) at 110 yields −20. -/
theorem closing_fill_pnl_witness :
    ((eps < longState.current_position.size ∧
       ((longState.current_position.side = "Long" ∧ "Sell" = "Sell") ∨
        (longState.current_position.side = "Short" ∧ "Sell" = "Buy"))) ∧
     ((execute_order longState "BTCUSDT" "Sell" 2 110).1.pnl =
        (if longState.current_position.side = "Long"
         then (110 - longState.current_position.entry_price)
                * min 2 longState.current_position.size
         else (longState.current_position.entry_price - 110)
                * min 2 longState.current_position.size) ∧
      (execute_order longState "BTCUSDT" "Sell" 2 110).2.current_balance
        = longState.current_balance
          + (execute_order longState "BTCUSDT" "Sell" 2 110).1.pnl ∧
      (execute_order longState "BTCUSDT" "Sell" 2 110).1.success = true)) ∧
    (execute_order longState "BTCUSDT" "Sell" 2 110).1.pnl = 20 ∧
    (execute_order shortState "BTCUSDT" "Buy" 2 110).1.pnl = -20 :=
  ⟨⟨by with_unfolding_all decide,
    closing_fill_pnl longState "BTCUSDT" "Sell" 2 110 (by with_unfolding_all decide)⟩,
   by with_unfolding_all decide, by with_unfolding_all decide⟩

/-- C5: Reversal sequencing: on a BUY signal while SHORT (or SELL while LONG)
the engine issues exactly two fills in order — first a close whose quantity is
the full existing position size, then an open whose quantity is the configured
trade quantity — both at the same candle's closing price and timestamp. -/
theorem reversal_two_fills (strategy : List Candle → String) (sym : String) (qty : ℚ)
    (candles : List Candle) (i : ℕ) (st : ClientState) (h : i < candles.length)
    (hrev : (strategy (candles.take (i + 1)) = "BUY" ∧
               st.current_position.side = "Short") ∨
            (strategy (candles.take (i + 1)) = "SELL" ∧
               st.current_position.side = "Long")) :
    (backtestStep strategy sym qty candles i st).2.2.map Fill.req
      = [((if strategy (candles.take (i + 1)) = "BUY" then "Buy" else "Sell"),
          st.current_position.size, (candles.getD i defaultCandle).close,
          (candles.getD i defaultCandle).timestamp),
         ((if strategy (candles.take (i + 1)) = "BUY" then "Buy" else "Sell"),
          qty, (candles.getD i defaultCandle).close,
          (candles.getD i defaultCandle).timestamp)] := by
  rcases hrev with ⟨hs, hside⟩ | ⟨hs, hside⟩
  · simp only [backtestStep, hs]
    rw [handleSignal_buy_short sym qty (candles.getD i defaultCandle).close
      (candles.getD i defaultCandle).timestamp st hside]
    simp [closeLeg, openLeg, Fill.req]
  · simp only [backtestStep, hs]
    rw [handleSignal_sell_long sym qty (candles.getD i defaultCandle).close
      (candles.getD i defaultCandle).timestamp st hside]
    simp [closeLeg, openLeg, Fill.req]

/-- Witness for C5: BUY while SHORT of size 3, with trade quantity 2. -/
theorem reversal_two_fills_witness :
    (0 < revCandles.length ∧
     ((alwaysBuyStrategy (revCandles.take (0 + 1)) = "BUY" ∧
        revState.current_position.side = "Short") ∨
      (alwaysBuyStrategy (revCandles.take (0 + 1)) = "SELL" ∧
        revState.current_position.side = "Long"))) ∧
    (backtestStep alwaysBuyStrategy "BTCUSDT" 2 revCandles 0 revState).2.2.map Fill.req
      = [((if alwaysBuyStrategy (revCandles.take (0 + 1)) = "BUY" then "Buy" else "Sell"),
          revState.current_position.size, (revCandles.getD 0 defaultCandle).close,
          (revCandles.getD 0 defaultCandle).timestamp),
         ((if alwaysBuyStrategy (revCandles.take (0 + 1)) = "BUY" then "Buy" else "Sell"),
          2, (revCandles.getD 0 defaultCandle).close,
          (revCandles.getD 0 defaultCandle).timestamp)] :=
  ⟨⟨by with_unfolding_all decide, Or.inl ⟨rfl, rfl⟩⟩,
   reversal_two_fills alwaysBuyStrategy "BTCUSDT" 2 revCandles 0 revState
     (by with_unfolding_all decide) (Or.inl ⟨rfl, rfl⟩)⟩

/-- C6 counterexample: at position size exactly epsilon (hence ≤ epsilon, as
the claim states), a BUY fill is NOT classified as an opening fill: the code
tests `size < 1e-9` strictly, so the order falls through to the reject branch
— success is false and the position keeps its old size and entry price
instead of becoming the fill's quantity and price. -/
theorem opening_at_epsilon_rejected :
    epsLongState.current_position.size ≤ eps ∧
    (execute_order epsLongState "BTCUSDT" "Buy" 1 110).1.success = false ∧
    (execute_order epsLongState "BTCUSDT" "Buy" 1 110).1.pnl = 0 ∧
    (execute_order epsLongState "BTCUSDT" "Buy" 1 110).2 = epsLongState := by
  norm_num [execute_order, epsLongState, eps]

/-- C6 (amended): for every fill submitted when the current position size is
STRICTLY below epsilon (1e-9), the fill is classified as opening — BUY maps
the side to LONG and SELL to SHORT, the size becomes the fill quantity, the
entry price the fill price, the returned pnl is 0 and the balance is
unchanged.  (At size exactly epsilon the fill is rejected instead.) -/
theorem opening_below_epsilon (st : ClientState) (sym os : String) (q p : ℚ)
    (h : st.current_position.size < eps) :
    (execute_order st sym os q p).1.success = true ∧
    (execute_order st sym os q p).1.pnl = 0 ∧
    (execute_order st sym os q p).2.current_balance = st.current_balance ∧
    (execute_order st sym os q p).2.current_position.side
      = (if os = "Buy" then "Long" else "Short") ∧
    (execute_order st sym os q p).2.current_position.size = q ∧
    (execute_order st sym os q p).2.current_position.entry_price = p :=
  execute_order_opening st sym os q p h

/-- Witness for the amended C6: opening a SHORT from a flat client. -/
theorem opening_below_epsilon_witness :
    flatState.current_position.size < eps ∧
    ((execute_order flatState "BTCUSDT" "Sell" 3 250).1.success = true ∧
     (execute_order flatState "BTCUSDT" "Sell" 3 250).1.pnl = 0 ∧
     (execute_order flatState "BTCUSDT" "Sell" 3 250).2.current_balance
       = flatState.current_balance ∧
     (execute_order flatState "BTCUSDT" "Sell" 3 250).2.current_position.side
       = (if "Sell" = "Buy" then "Long" else "Short") ∧
     (execute_order flatState "BTCUSDT" "Sell" 3 250).2.current_position.size = 3 ∧
     (execute_order flatState "BTCUSDT" "Sell" 3 250).2.current_position.entry_price
       = 250) :=
  ⟨by with_unfolding_all decide,
   opening_below_epsilon flatState "BTCUSDT" "Sell" 3 250 (by with_unfolding_all decide)⟩

/-- C7: Reject atomicity: a fill that falls into the reject classification
returns success = false with pnl 0, and the whole account state — balance,
position size, side and entry price — is unchanged. -/
theorem reject_atomicity (st : ClientState) (sym os : String) (q p : ℚ)
    (h1 : ¬ (eps < st.current_position.size ∧
      ((st.current_position.side = "Long" ∧ os = "Sell") ∨
       (st.current_position.side = "Short" ∧ os = "Buy"))))
    (h2 : ¬ st.current_position.size < eps)
    (h3 : ¬ (eps < st.current_position.size ∧ st.current_position.side = os)) :
    (execute_order st sym os q p).1.success = false ∧
    (execute_order st sym os q p).1.pnl = 0 ∧
    (execute_order st sym os q p).2 = st :=
  execute_order_reject st sym os q p h1 h2 h3

/-- Witness for C7: a SHORT of size exactly epsilon receives a Buy fill. -/
theorem reject_atomicity_witness :
    (¬ (eps < epsShortState.current_position.size ∧
        ((epsShortState.current_position.side = "Long" ∧ "Buy" = "Sell") ∨
         (epsShortState.current_position.side = "Short" ∧ "Buy" = "Buy"))) ∧
     ¬ epsShortState.current_position.size < eps ∧
     ¬ (eps < epsShortState.current_position.size ∧
        epsShortState.current_position.side = "Buy")) ∧
    ((execute_order epsShortState "BTCUSDT" "Buy" 2 110).1.success = false ∧
     (execute_order epsShortState "BTCUSDT" "Buy" 2 110).1.pnl = 0 ∧
     (execute_order epsShortState "BTCUSDT" "Buy" 2 110).2 = epsShortState) :=
  ⟨⟨by with_unfolding_all decide, by with_unfolding_all decide,
    by with_unfolding_all decide⟩,
   reject_atomicity epsShortState "BTCUSDT" "Buy" 2 110
     (by with_unfolding_all decide) (by with_unfolding_all decide)
     (by with_unfolding_all decide)⟩

/-- C8 counterexample: with the positive configured trade quantity
eps = 1e-9, the engine's own calls are rejected: the run over two candles
with signals BUY then SELL produces fills whose success flags are
[true, false, false, false] — the close, re-open and terminal-liquidation
calls all return success = false. -/
theorem engine_reject_reached :
    (0 : ℚ) < eps ∧
    ((run_backtest lenOneStrategy "BTCUSDT" eps 1000 0
        [⟨0, 100⟩, ⟨1, 200⟩]).fills.map Fill.success) = [true, false, false, false] := by
  with_unfolding_all decide

/-- C8 (amended): with a configured trade quantity strictly greater than
epsilon (1e-9) — as the actual configured value 0.1 is — every call to
`execute_order` issued by `run_backtest`, including the terminal-liquidation
close, returns success = true: the reject branch is never reached by the
engine. -/
theorem engine_fills_all_succeed (strategy : List Candle → String) (sym : String)
    (qty cap cr : ℚ) (candles : List Candle) (hq : eps < qty) :
    ∀ f ∈ (run_backtest strategy sym qty cap cr candles).fills, f.success = true := by
  have hloop := runIndices_inv strategy sym qty hq candles (List.range candles.length)
    (initClient cap cr) (Or.inl ⟨rfl, rfl⟩)
  intro f hf
  simp only [run_backtest] at hf
  rcases List.mem_append.mp hf with hf2 | hf2
  · exact hloop.2 f hf2
  · by_cases hne : candles = []
    · subst hne
      simp [terminalLiquidation] at hf2
    · exact (terminalLiquidation_flat sym qty hq candles _ hloop.1 hne).2.2 f hf2

/-- Witness for the amended C8 at trade quantity 1. -/
theorem engine_fills_all_succeed_witness :
    eps < (1 : ℚ) ∧
    ∀ f ∈ (run_backtest lenOneStrategy "ETHUSDT" 1 500 0
        [⟨0, 50⟩, ⟨1, 60⟩]).fills, f.success = true :=
  ⟨by with_unfolding_all decide,
   engine_fills_all_succeed lenOneStrategy "ETHUSDT" 1 500 0 [⟨0, 50⟩, ⟨1, 60⟩]
     (by with_unfolding_all decide)⟩

/-- C9: the code rejects the claim's extending fill.  For an existing LONG of
size 1.0 at entry 100, a BUY fill of quantity 1.0 at price 200 — which the
spec says must extend the position to size 2.0 at entry price 150.0 — is
rejected by `execute_order` with success = false and an unchanged state: the
code's extension test compares the position-side string "Long" with the
order-side string "Buy", which are never equal, so `is_extending` is
unreachable for Buy/Sell order sides and the call falls to the reject
branch. -/
theorem extend_request_rejected :
    (execute_order extendLongState "BTCUSDT" "Buy" 1 200).1.success = false ∧
    (execute_order extendLongState "BTCUSDT" "Buy" 1 200).2 = extendLongState ∧
    (execute_order extendLongState "BTCUSDT" "Buy" 1 200).2.current_position.size = 1 ∧
    (execute_order extendLongState "BTCUSDT" "Buy" 1 200).2.current_position.entry_price
      = 100 := by
  norm_num [execute_order, extendLongState, eps]
  simp

/-- C10: Commission-rate noninterference: two runs identical except for the
configured commission rate produce the same trade log, the same fills (hence
the same per-call results and pnl values), the same strategy inputs, the same
final balance and the same final position. -/
theorem commission_rate_noninterference (strategy : List Candle → String)
    (sym : String) (qty cap cr1 cr2 : ℚ) (candles : List Candle) :
    (run_backtest strategy sym qty cap cr1 candles).log
      = (run_backtest strategy sym qty cap cr2 candles).log ∧
    (run_backtest strategy sym qty cap cr1 candles).fills
      = (run_backtest strategy sym qty cap cr2 candles).fills ∧
    (run_backtest strategy sym qty cap cr1 candles).stratInputs
      = (run_backtest strategy sym qty cap cr2 candles).stratInputs ∧
    (run_backtest strategy sym qty cap cr1 candles).final.current_balance
      = (run_backtest strategy sym qty cap cr2 candles).final.current_balance ∧
    (run_backtest strategy sym qty cap cr1 candles).final.current_position
      = (run_backtest strategy sym qty cap cr2 candles).final.current_position := by
  rw [run_backtest_cr_eq_base strategy sym qty cap cr1 candles,
      run_backtest_cr_eq_base strategy sym qty cap cr2 candles]
  exact ⟨rfl, rfl, rfl, rfl, rfl⟩

end TradingBot
